import Mathlib

/-!
Verification of `zerver/lib/bugdown/api_arguments_table_generator.py`:
a Markdown preprocessor that scans documentation lines for directives of
the form `\x7bgenerate_api_arguments_table| source | key \x7d`, resolves the
referenced argument list (from a JSON file or from an OpenAPI resolver),
and splices a rendered HTML table into the line sequence.

The embedding below models the Python module faithfully at the level of
characters and lines: the regular expression
`\\\x7bgenerate_api_arguments_table\\|\\s*(.+?)\\s*\\|\\s*(.+)\\s*\\\x7d`
is implemented with Python `re` backtracking semantics (lazy first group,
greedy second group), and the scanner loop, the failure path
(`REGEXP.sub`), and the success path (`REGEXP.split` plus list splicing)
are translated operation by operation.  External collaborators (the file
system / JSON loader, the OpenAPI parameter resolver, and the Markdown
inline formatter) are supplied through a `Config` record, mirroring the
imports of the module.
-/

namespace ApiTables

/-- Characters treated as whitespace by Python `\s` (ASCII subset; all
inputs in this development are ASCII). -/
def wsChar (c : Char) : Bool :=
  c = ' ' || c = '\t' || c = '\n' || c = '\r' || c = '\x0b' || c = '\x0c'

/-- Characters matched by Python `.` without `re.DOTALL`: everything but
a newline. -/
def dotChar (c : Char) : Bool := c ≠ '\n'

/-- Drop the maximal whitespace prefix (the deterministic part of a
`\s*` item whose continuation starts with a non-whitespace literal). -/
def dropWsL : List Char → List Char
  | [] => []
  | c :: cs => if wsChar c then dropWsL cs else c :: cs

/-- Length of the maximal whitespace prefix. -/
def wsLen : List Char → Nat
  | [] => 0
  | c :: cs => if wsChar c then wsLen cs + 1 else 0

/-- Length of the maximal prefix of characters matched by `.`. -/
def dotLen : List Char → Nat
  | [] => 0
  | c :: cs => if dotChar c then dotLen cs + 1 else 0

/-- Strip a literal character sequence from the front of the input,
failing when the input does not start with it. -/
def stripLit : List Char → List Char → Option (List Char)
  | [], cs => some cs
  | _ :: _, [] => none
  | p :: ps, c :: cs => if c = p then stripLit ps cs else none

/-- The literal head of the directive pattern,
`\x7bgenerate_api_arguments_table|`. -/
def litChars : List Char := "\x7bgenerate_api_arguments_table|".data

/-- Match `\s*\x7d` at the front of the input: skip maximal whitespace and
require a closing brace (a brace is not whitespace, so no further
backtracking is possible here).  Returns the input after the brace. -/
def closeBrace (cs : List Char) : Option (List Char) :=
  match dropWsL cs with
  | '\x7d' :: rest => some rest
  | _ => none

/-- Greedy `(.+)\s*\x7d` on `u`, with the length of the `.+` part tried
from `e` downward (Python tries the longest capture first).  Returns the
captured group and the input after the brace. -/
def greedyTail (u : List Char) : Nat → Option (List Char × List Char)
  | 0 => none
  | e + 1 =>
    match closeBrace (u.drop (e + 1)) with
    | some rest => some (u.take (e + 1), rest)
    | none => greedyTail u e

/-- The `\s*(.+)\s*\x7d` tail of the pattern on `c2`, with the `\s*` item
consuming `w` characters first and backtracking to shorter prefixes
(Python prefers the longest `\s*`, but `.` also matches a space, so
shorter choices can succeed when longer ones fail). -/
def tailW (c2 : List Char) : Nat → Option (List Char × List Char)
  | 0 => greedyTail c2 (dotLen c2)
  | w + 1 =>
    let u := c2.drop (w + 1)
    match greedyTail u (dotLen u) with
    | some r => some r
    | none => tailW c2 w

/-- After a candidate first capture group: match `\s*\|`, then the tail
of the pattern.  Returns the second group and the input after the match. -/
def afterG1 (rest : List Char) : Option (List Char × List Char) :=
  match dropWsL rest with
  | '|' :: c2 => tailW c2 (wsLen c2)
  | _ => none

/-- Lazy `(.+?)` on `t`: candidate capture lengths are tried in
increasing order starting from `L`, with `budget` candidates remaining.
Returns (first group, second group, input after the match). -/
def lazyG1 (t : List Char) : Nat → Nat → Option (List Char × List Char × List Char)
  | _, 0 => none
  | L, b + 1 =>
    match afterG1 (t.drop L) with
    | some (g2, rest) => some (t.take L, g2, rest)
    | none => lazyG1 t (L + 1) b

/-- The `\s*(.+?)\s*\|...` part after the literal head, with the leading
`\s*` consuming `w` characters first and backtracking to shorter
prefixes. -/
def g1W (c1 : List Char) : Nat → Option (List Char × List Char × List Char)
  | 0 => lazyG1 c1 1 (dotLen c1)
  | w + 1 =>
    let t := c1.drop (w + 1)
    match lazyG1 t 1 (dotLen t) with
    | some r => some r
    | none => g1W c1 w

/-- Try to match the whole directive pattern at the front of `cs`.
Returns (group 1, group 2, input after the match). -/
def matchAt (cs : List Char) : Option (List Char × List Char × List Char) :=
  match stripLit litChars cs with
  | none => none
  | some c1 => g1W c1 (wsLen c1)

/-- Scan left to right for the first position where the pattern matches,
like `REGEXP.search`.  Returns (text before the match, group 1, group 2,
text after the match). -/
def searchAux (acc : List Char) :
    List Char → Option (List Char × List Char × List Char × List Char)
  | [] => none
  | c :: cs =>
    match matchAt (c :: cs) with
    | some (g1, g2, rest) => some (acc.reverse, g1, g2, rest)
    | none => searchAux (c :: acc) cs

/-- Python `REGEXP.search(line)` restricted to the two captured groups. -/
def searchGroups (s : String) : Option (String × String) :=
  match searchAux [] s.data with
  | some (_, g1, g2, _) => some (String.mk g1, String.mk g2)
  | none => none

/-- Python `REGEXP.sub` with empty replacement: remove every
(non-overlapping, left-to-right) match.  Fuel-recursive; every match
consumes at least one character, so `length + 1` fuel always suffices. -/
def subFuel : Nat → List Char → List Char
  | 0, cs => cs
  | f + 1, cs =>
    match searchAux [] cs with
    | none => cs
    | some (pre, _, _, rest) => pre ++ subFuel f rest

/-- Python `REGEXP.sub` with empty replacement, on strings. -/
def pySub (s : String) : String := String.mk (subFuel (s.length + 1) s.data)

/-- Python `REGEXP.split(line, maxsplit=0)`: the segments between
matches with the two captured groups of each match interleaved. -/
def splitFuel : Nat → List Char → List (List Char)
  | 0, cs => [cs]
  | f + 1, cs =>
    match searchAux [] cs with
    | none => [cs]
    | some (pre, g1, g2, rest) => pre :: g1 :: g2 :: splitFuel f rest

/-- Python `REGEXP.split(line, maxsplit=0)` on strings. -/
def pySplit (s : String) : List String :=
  (splitFuel (s.length + 1) s.data).map String.mk

/-! Path helpers, modelling the `os.path` functions the scanner calls. -/

/-- Character-level prefix test. -/
def pfxCh : List Char → List Char → Bool
  | [], _ => true
  | _ :: _, [] => false
  | a :: as, b :: bs => a = b && pfxCh as bs

/-- String prefix test (`str.startswith`). -/
def strStarts (s t : String) : Bool := pfxCh t.data s.data

/-- String suffix test (`str.endswith`). -/
def strEnds (s t : String) : Bool := pfxCh t.data.reverse s.data.reverse

/-- Join a list of strings with a separator (`sep.join(parts)`). -/
def joinSep (sep : String) : List String → String
  | [] => ""
  | [x] => x
  | x :: y :: ys => x ++ sep ++ joinSep sep (y :: ys)

/-- Split a character list on the slash character; `acc` holds the
current segment reversed. -/
def splitSlash (acc : List Char) : List Char → List String
  | [] => [String.mk acc.reverse]
  | c :: cs =>
    if c = '/' then String.mk acc.reverse :: splitSlash [] cs
    else splitSlash (c :: acc) cs

/-- One step of the component loop of `os.path.normpath`: append the
component unless it is a `..` that cancels a previous component. -/
def npStep (slashes : Nat) (acc : List String) (comp : String) : List String :=
  if comp != ".." || (slashes == 0 && acc.isEmpty)
      || (!acc.isEmpty && acc.getLastD "" == "..") then
    acc ++ [comp]
  else if !acc.isEmpty then acc.dropLast
  else acc

/-- Models Python `os.path.normpath` for POSIX paths: drops empty and
`.` components, resolves `..` where possible, and preserves one or two
leading slashes. -/
def normpath (p : String) : String :=
  if p = "" then "."
  else
    let slashes : Nat :=
      if strStarts p "//" && !strStarts p "///" then 2
      else if strStarts p "/" then 1
      else 0
    let comps := (splitSlash [] p.data).filter (fun c => c != "" && c != ".")
    let newC := comps.foldl (npStep slashes) []
    let res := String.mk (List.replicate slashes '/') ++ joinSep "/" newC
    if res = "" then "." else res

/-- Models Python `os.path.isabs` for POSIX paths. -/
def isabs (p : String) : Bool := strStarts p "/"

/-- Models Python `os.path.join(a, b)` for two arguments. -/
def joinPath (a b : String) : String :=
  if isabs b then b
  else if a == "" || strEnds a "/" then a ++ b
  else a ++ "/" ++ b

/-- Models Python `os.path.expanduser` for the bare `~` and `~/`-prefix
cases; `~user` forms depend on the system user database and are left
unchanged. -/
def expanduser (home s : String) : String :=
  if s == "~" then home
  else if strStarts s "~/" then home ++ String.mk (s.data.drop 1)
  else s

/-- Models Python `str.rsplit` at the last colon, followed by unpacking
into two variables: fails (a `ValueError`) when the string contains no
colon. -/
def rsplitColonAux (acc : List Char) : List Char → Option (List Char × List Char)
  | [] => none
  | c :: cs => if c = ':' then some (cs.reverse, acc) else rsplitColonAux (c :: acc) cs

/-- The split `endpoint, method = doc_name.rsplit` at the last colon. -/
def rsplitColon (s : String) : Option (String × String) :=
  match rsplitColonAux [] s.data.reverse with
  | some (a, b) => some (String.mk a, String.mk b)
  | none => none

/-! The data model and the table renderer. -/

/-- One parameter record of an argument list, as the Python code reads
it from a JSON dictionary: the optional keys `argument`, `name`,
`required` (truthiness, defaulting to false when absent) and the nested
`schema.enum` list (flattened here to a list that is empty when the
nested field is absent), plus `example` and `description`, which the
renderer accesses unconditionally. -/
structure ArgumentRecord where
  argument : Option String := none
  name : Option String := none
  example_ : Option String := none
  required : Bool := false
  description : Option String := none
  enum : List String := []
deriving DecidableEq, Repr

/-- Python truthiness of an optional string: `None` and the empty string
are falsy. -/
def pyTruthy : Option String → Bool
  | none => false
  | some s => s ≠ ""

/-- Python `str(v)` as applied by `format` to an optional string:
`None` prints as `None`. -/
def pyStr : Option String → String
  | none => "None"
  | some s => s

/-- The Argument cell: the Python expression
`argument.get("argument") or argument.get("name")` coerced to a string
by `format`. -/
def argCell (a n : Option String) : String :=
  pyStr (if pyTruthy a then a else n)

/-- The `tr` template of `render_table`, with the four format fields
substituted. -/
def trFormat (argument example_ required description : String) : String :=
  "\n<tr>\n  <td><code>" ++ argument ++ "</code></td>\n  <td><code>" ++ example_
    ++ "</code></td>\n  <td>" ++ required ++ "</td>\n  <td>" ++ description
    ++ "</td>\n</tr>\n"

/-- The `beginning` template of `render_table`: the fixed table header
block. -/
def tableBegin : String :=
  "\n<table class=\"table\">\n  <thead>\n    <tr>\n      <th>Argument</th>\n      <th>Example</th>\n      <th>Required</th>\n      <th>Description</th>\n    </tr>\n  </thead>\n<tbody>\n"

/-- One row of the table body.  `md` models the external Markdown inline
formatter (`markdown.Markdown(extensions=[]).convert`) applied to the
description.  A record missing `description` or `example` raises a
`KeyError`, modelled as the error branch; the `description` access comes
first in the source. -/
def renderRow (md : String → String) (a : ArgumentRecord) : Except String String :=
  let oneof := a.enum.map (fun item => "`" ++ item ++ "`")
  match a.description with
  | none => Except.error "KeyError: description"
  | some d =>
    let description :=
      if oneof.isEmpty then d
      else d ++ "\nMust be one of: " ++ joinSep ", " oneof ++ "."
    match a.example_ with
    | none => Except.error "KeyError: example"
    | some ex =>
      Except.ok (trFormat (argCell a.argument a.name) ex
        (if a.required then "Yes" else "No") (md description))

/-- Render the body rows in order, stopping at the first malformed
record (the Python loop raises out of `render_table` there). -/
def rowsExc (md : String → String) : List ArgumentRecord → Except String (List String)
  | [] => Except.ok []
  | a :: as =>
    match renderRow md a with
    | Except.error e => Except.error e
    | Except.ok r =>
      match rowsExc md as with
      | Except.error e => Except.error e
      | Except.ok rs => Except.ok (r :: rs)

/-- `APIArgumentsTablePreprocessor.render_table`: the fixed header
block, one row per record in input order, then the fixed footer. -/
def render_table (md : String → String) (arguments : List ArgumentRecord) :
    Except String (List String) :=
  match rowsExc md arguments with
  | Except.error e => Except.error e
  | Except.ok rows => Except.ok (tableBegin :: (rows ++ ["</tbody>", "</table>"]))

/-! The scanner. -/

/-- The external collaborators and configuration of the preprocessor:
the configured base path; the home directory consulted by
`os.path.expanduser`; the file system plus JSON parser
(`open` / `ujson.load`, with the text of the raised exception on failure);
the OpenAPI resolver `get_openapi_parameters`; and the Markdown inline
formatter used on descriptions. -/
structure Config where
  base_path : String
  home : String
  files : String → Except String (List (String × List ArgumentRecord))
  get_openapi_parameters : String → String → Except String (List ArgumentRecord)
  md_convert : String → String

/-- Dictionary lookup `json_obj[doc_name]`, raising a `KeyError` when
the key is absent. -/
def lookupKey (obj : List (String × List ArgumentRecord)) (k : String) :
    Except String (List ArgumentRecord) :=
  match obj.find? (fun p => p.1 = k) with
  | some p => Except.ok p.2
  | none => Except.error ("KeyError: " ++ k)

/-- The filename after `expanduser` and, for relative paths, `normpath`
of the join with the base path — exactly the value the code passes to
`open` and prints in the warning. -/
def resolvedFilename (cfg : Config) (g1 : String) : String :=
  let filename := expanduser cfg.home g1
  if isabs filename then filename
  else normpath (joinPath cfg.base_path filename)

/-- The body of the `try` block for one matched directive: resolve the
argument list (OpenAPI resolver for `.yaml` sources, JSON file plus key
lookup otherwise) and render it.  Any error models the exception caught
by the `except` clause. -/
def processMatch (cfg : Config) (g1 g2 : String) : Except String (List String) :=
  let filename := expanduser cfg.home g1
  let is_openapi_format := strEnds filename ".yaml"
  let resolved :=
    if isabs filename then filename
    else normpath (joinPath cfg.base_path filename)
  match
    (if is_openapi_format then
      match rsplitColon g2 with
      | some (endpoint, method) => cfg.get_openapi_parameters endpoint method
      | none => Except.error "ValueError: not enough values to unpack"
    else
      match cfg.files resolved with
      | Except.error e => Except.error e
      | Except.ok json_obj => lookupKey json_obj g2) with
  | Except.error e => Except.error e
  | Except.ok arguments => render_table cfg.md_convert arguments

/-- The warning printed by the `except` clause. -/
def warnMsg (filename err : String) : String :=
  "Warning: could not find file " ++ filename ++ ". Ignoring statement. Error: "
    ++ err

/-- The first line (in iteration order) on which `REGEXP.search`
succeeds, with its index and the two captured groups — the combination
of the `for line in lines` loop, `lines.index(line)`, and
`REGEXP.search(line)`.  (For the first matching line, `lines.index`
returns the position of that line itself: any earlier equal line would
match and be encountered first.) -/
def findDirective : Nat → List String → Option (Nat × String × String × String)
  | _, [] => none
  | i, l :: ls =>
    match searchGroups l with
    | some (g1, g2) => some (i, l, g1, g2)
    | none => findDirective (i + 1) ls

/-- The `while not done` scanner loop of
`APIArgumentsTablePreprocessor.run`, with `fuel` bounding the number of
iterations (the source enforces no bound and can loop forever; every
claim below is about terminating inputs).  Returns the transformed lines
and the warnings printed, in order.  On failure the matched line is
replaced in place by `REGEXP.sub` of the empty string; on success the line is
replaced by the splice of the first split segment, the table lines, and
the last split segment, shifting all later lines. -/
def runAux (cfg : Config) : Nat → List String → List String × List String
  | 0, lines => (lines, [])
  | f + 1, lines =>
    match findDirective 0 lines with
    | none => (lines, [])
    | some (loc, line, g1, g2) =>
      match processMatch cfg g1 g2 with
      | Except.error e =>
        let r := runAux cfg f (lines.set loc (pySub line))
        (r.1, warnMsg (resolvedFilename cfg g1) e :: r.2)
      | Except.ok text =>
        let parts := pySplit line
        let preceding := parts.headD ""
        let following := parts.getLastD ""
        runAux cfg f
          (lines.take loc ++ (preceding :: (text ++ [following])) ++ lines.drop (loc + 1))

/-- The transformed line sequence returned by `run`. -/
def run (cfg : Config) (fuel : Nat) (lines : List String) : List String :=
  (runAux cfg fuel lines).1

/-- The diagnostics printed during `run`, in order. -/
def runDiags (cfg : Config) (fuel : Nat) (lines : List String) : List String :=
  (runAux cfg fuel lines).2

/-! Derived forms of the renderer used to state properties. -/

/-- The full description string handed to the Markdown formatter: the
description of the record, with the enum sentence appended when the
enum list is nonempty. -/
def fullDescription (a : ArgumentRecord) : String :=
  let oneof := a.enum.map (fun item => "`" ++ item ++ "`")
  if oneof.isEmpty then a.description.getD ""
  else a.description.getD "" ++ "\nMust be one of: " ++ joinSep ", " oneof ++ "."

/-- The row block a well-formed record (one with `description` and
`example` present) renders to. -/
def rowOf (md : String → String) (a : ArgumentRecord) : String :=
  trFormat (argCell a.argument a.name) (a.example_.getD "")
    (if a.required then "Yes" else "No") (md (fullDescription a))

/-! Concrete scenario data used by the claims. -/

/-- The record stored under `create_user` in the scenario file
`params.json`. -/
def recEmail : ArgumentRecord :=
  { name := some "email", example_ := some "a@b.com", required := true,
    description := some "User email" }

/-- A second sample record, with `required` absent (falsy). -/
def recD : ArgumentRecord :=
  { name := some "email", example_ := some "a@b.com", description := some "D" }

/-- A record carrying an enumerated-values list. -/
def recEnum : ArgumentRecord :=
  { name := some "level", example_ := some "1", description := some "Org level",
    enum := ["a", "b"] }

/-- Scenario configuration: `params.json` at the base path maps
`create_user` to `[recEmail]`; every other path is missing; the inline
formatter is the identity. -/
def cfgParams : Config :=
  { base_path := ".", home := "/home/user",
    files := fun p =>
      if p = "params.json" then Except.ok [("create_user", [recEmail])]
      else Except.error ("No such file or directory: " ++ p),
    get_openapi_parameters := fun e m => Except.error ("no openapi spec: " ++ e ++ " " ++ m),
    md_convert := id }

/-- Scenario configuration with an empty file system: every file is
missing from disk. -/
def cfgMissing : Config :=
  { base_path := ".", home := "/home/user",
    files := fun p => Except.error ("No such file or directory: " ++ p),
    get_openapi_parameters := fun e m => Except.error ("no openapi spec: " ++ e ++ " " ++ m),
    md_convert := id }

/-- Probe configuration whose OpenAPI resolver fails while reporting the
exact endpoint and method it was invoked with (the parentheses make
trailing whitespace visible). -/
def cfgProbe : Config :=
  { base_path := ".", home := "/home/user",
    files := fun p => Except.error ("No such file or directory: " ++ p),
    get_openapi_parameters := fun e m =>
      Except.error ("endpoint=(" ++ e ++ ") method=(" ++ m ++ ")"),
    md_convert := id }

/-- The scenario line with inline text on both sides of the directive,
written as in the spec (a space before the closing brace). -/
def lineC1sp : String :=
  "Intro \x7bgenerate_api_arguments_table| params.json | create_user \x7d Outro"

/-- The same scenario line without the space before the closing brace. -/
def lineC1ns : String :=
  "Intro \x7bgenerate_api_arguments_table| params.json | create_user\x7d Outro"

/-- The API-description scenario line. -/
def lineYaml : String :=
  "\x7bgenerate_api_arguments_table| api.yaml | /users:get \x7d"

/-- A line carrying two directives. -/
def lineTwo : String :=
  "A \x7bgenerate_api_arguments_table| f.json | k \x7d B \x7bgenerate_api_arguments_table| g.json | k2 \x7d C"

/-- The second captured group of the single match on `lineTwo`: the
greedy group extends to the last closing brace of the line, swallowing
the second directive. -/
def bigKey : String :=
  "k \x7d B \x7bgenerate_api_arguments_table| g.json | k2 "

/-- Configuration for the two-directive line: `f.json` maps `bigKey` to
`[recD]`; `g.json` is missing from disk. -/
def cfgTwo : Config :=
  { base_path := ".", home := "/home/user",
    files := fun p =>
      if p = "f.json" then Except.ok [(bigKey, [recD])]
      else Except.error ("No such file or directory: " ++ p),
    get_openapi_parameters := fun e m => Except.error ("no openapi spec: " ++ e ++ " " ++ m),
    md_convert := id }

/-- The rendered row for `recEmail`. -/
def rowEmail : String :=
  "\n<tr>\n  <td><code>email</code></td>\n  <td><code>a@b.com</code></td>\n  <td>Yes</td>\n  <td>User email</td>\n</tr>\n"

/-- The rendered row for `recD`. -/
def rowD : String :=
  "\n<tr>\n  <td><code>email</code></td>\n  <td><code>a@b.com</code></td>\n  <td>No</td>\n  <td>D</td>\n</tr>\n"

/-- The scenario directive standing alone on its line. -/
def lineFull : String :=
  "\x7bgenerate_api_arguments_table| params.json | create_user \x7d"

/-! General lemmas about the scanner and the renderer. -/

/-- When no line matches the directive pattern, the scanner finds no
directive. -/
theorem findDirective_none (ls : List String)
    (h : ∀ l ∈ ls, searchGroups l = none) :
    ∀ i, findDirective i ls = none := by
  induction ls with
  | nil => intro i; rfl
  | cons l ls ih =>
    intro i
    have hl := h l (List.mem_cons_self l ls)
    have ht := ih (fun x hx => h x (List.mem_cons_of_mem l hx))
    simp [findDirective, hl, ht]

/-- A record with `description` and `example` present renders to its
`rowOf` block. -/
theorem renderRow_ok (md : String → String) (a : ArgumentRecord)
    (h1 : a.description.isSome) (h2 : a.example_.isSome) :
    renderRow md a = Except.ok (rowOf md a) := by
  obtain ⟨d, hd⟩ := Option.isSome_iff_exists.mp h1
  obtain ⟨ex, he⟩ := Option.isSome_iff_exists.mp h2
  simp [renderRow, rowOf, fullDescription, hd, he]

/-- Row rendering succeeds on a list of well-formed records and yields
the per-record rows in input order. -/
theorem rowsExc_ok (md : String → String) :
    ∀ args : List ArgumentRecord,
      (∀ a ∈ args, a.description.isSome ∧ a.example_.isSome) →
      rowsExc md args = Except.ok (args.map (rowOf md))
  | [], _ => rfl
  | a :: as, h => by
    have h1 := (h a (List.mem_cons_self a as)).1
    have h2 := (h a (List.mem_cons_self a as)).2
    have ih := rowsExc_ok md as (fun b hb => h b (List.mem_cons_of_mem a hb))
    simp [rowsExc, renderRow_ok md a h1 h2, ih]

/-! Structure of a successful match.  Each matcher layer is unwound into
an explicit decomposition of its input, giving a symbolic description of
every match: where the captured groups sit, which whitespace the pattern
consumed, and which continuations the greedy group ruled out. -/

/-- Whitespace dropping splits off an all-whitespace prefix. -/
theorem dropWsL_decomp (cs : List Char) :
    ∃ w, cs = w ++ dropWsL cs ∧ ∀ c ∈ w, wsChar c := by
  induction cs with
  | nil => exact ⟨[], rfl, by simp⟩
  | cons c cs ih =>
    by_cases h : wsChar c
    · obtain ⟨w, hw, hws⟩ := ih
      refine ⟨c :: w, ?_, ?_⟩
      · simpa [dropWsL, h] using hw
      · intro x hx
        rcases List.mem_cons.mp hx with hx | hx
        · exact hx ▸ h
        · exact hws x hx
    · exact ⟨[], by simp [dropWsL, h], by simp⟩

/-- Whitespace dropping passes over an all-whitespace prefix. -/
theorem dropWsL_ws_append (w v : List Char) (h : ∀ c ∈ w, wsChar c) :
    dropWsL (w ++ v) = dropWsL v := by
  induction w with
  | nil => rfl
  | cons c w ih =>
    have hc := h c (List.mem_cons_self c w)
    simpa [dropWsL, hc] using ih (fun x hx => h x (List.mem_cons_of_mem c hx))

/-- Members of the whitespace-dropped list are members of the list. -/
theorem dropWsL_mem (cs : List Char) (x : Char) (h : x ∈ dropWsL cs) : x ∈ cs := by
  obtain ⟨w, hw, _⟩ := dropWsL_decomp cs
  rw [hw]
  exact List.mem_append_right w h

/-- A prefix of the maximal whitespace run is all whitespace. -/
theorem take_wsLen (cs : List Char) : ∀ k, k ≤ wsLen cs → ∀ c ∈ cs.take k, wsChar c := by
  induction cs with
  | nil => intro k _ c hc; simp at hc
  | cons a cs ih =>
    intro k hk c hc
    cases k with
    | zero => simp at hc
    | succ j =>
      by_cases ha : wsChar a
      · have hwa : wsLen (a :: cs) = wsLen cs + 1 := by simp [wsLen, ha]
        rw [hwa] at hk
        rw [List.take_succ_cons] at hc
        rcases List.mem_cons.mp hc with hc | hc
        · rw [hc]; exact ha
        · exact ih j (by omega) c hc
      · have hwa : wsLen (a :: cs) = 0 := by simp [wsLen, ha]
        rw [hwa] at hk
        omega

/-- The maximal dot-prefix length never exceeds the length. -/
theorem dotLen_le_length : ∀ u : List Char, dotLen u ≤ u.length
  | [] => Nat.le_refl 0
  | c :: cs => by
    by_cases h : dotChar c
    · simpa [dotLen, h] using Nat.succ_le_succ (dotLen_le_length cs)
    · simp [dotLen, h]

/-- On a newline-free list, the maximal dot-prefix is everything. -/
theorem dotLen_eq_length (u : List Char) (h : ∀ c ∈ u, dotChar c) :
    dotLen u = u.length := by
  induction u with
  | nil => rfl
  | cons c cs ih =>
    have hc := h c (List.mem_cons_self c cs)
    simp [dotLen, hc, ih (fun x hx => h x (List.mem_cons_of_mem c hx))]

/-- A dot character right at the edge of the dot-prefix extends it. -/
theorem dotLen_succ_of_drop (u : List Char) :
    ∀ (k : Nat) (c : Char) (v : List Char), k ≤ dotLen u → u.drop k = c :: v →
      dotChar c → k + 1 ≤ dotLen u := by
  induction u with
  | nil => intro k c v _ hd _; simp at hd
  | cons a u ih =>
    intro k c v hk hd hc
    cases k with
    | zero =>
      rw [List.drop_zero] at hd
      injection hd with h1 _
      have hda : dotChar a := by rw [h1]; exact hc
      have hlen : dotLen (a :: u) = dotLen u + 1 := by simp [dotLen, hda]
      omega
    | succ j =>
      by_cases ha : dotChar a
      · have hlen : dotLen (a :: u) = dotLen u + 1 := by simp [dotLen, ha]
        rw [hlen] at hk ⊢
        have := ih j c v (by omega) hd hc
        omega
      · have hlen : dotLen (a :: u) = 0 := by simp [dotLen, ha]
        rw [hlen] at hk
        omega

/-- Emptying the input is a fixed point of the substitution. -/
theorem subFuel_nil : ∀ f, subFuel f [] = []
  | 0 => rfl
  | f + 1 => by simp [subFuel, searchAux]

/-- With no match, the substitution is the identity. -/
theorem subFuel_none (cs : List Char) (h : searchAux [] cs = none) :
    ∀ f, subFuel f cs = cs
  | 0 => rfl
  | f + 1 => by simp [subFuel, h]

/-- With no match, the split returns the single whole segment. -/
theorem splitFuel_none (cs : List Char) (h : searchAux [] cs = none) :
    ∀ f, splitFuel f cs = [cs]
  | 0 => rfl
  | f + 1 => by simp [splitFuel, h]

/-- Stripping a literal decomposes the input. -/
theorem stripLit_eq : ∀ (p cs r : List Char), stripLit p cs = some r → cs = p ++ r := by
  intro p
  induction p with
  | nil =>
    intro cs r h
    cases h
    simp
  | cons a p ih =>
    intro cs r h
    cases cs with
    | nil => exact absurd h (by simp [stripLit])
    | cons c cs =>
      by_cases hc : c = a
      · subst hc
        simp only [stripLit, if_pos rfl] at h
        simpa using ih cs r h
      · simp [stripLit, hc] at h

/-- Decomposition of a successful closing-brace step. -/
theorem closeBrace_decomp (v rest : List Char) (h : closeBrace v = some rest) :
    ∃ wend, v = wend ++ '\x7d' :: rest ∧ ∀ c ∈ wend, wsChar c := by
  obtain ⟨w, hw, hws⟩ := dropWsL_decomp v
  unfold closeBrace at h
  cases hd : dropWsL v with
  | nil => rw [hd] at h; simp at h
  | cons c cr =>
    rw [hd] at h
    by_cases hc : c = '\x7d'
    · subst hc
      simp only [Option.some.injEq] at h
      exact ⟨w, by rw [hw, hd, h], hws⟩
    · simp [hc] at h

/-- A successful closing-brace step needs a brace in the input. -/
theorem closeBrace_mem (v rest : List Char) (h : closeBrace v = some rest) :
    '\x7d' ∈ v := by
  obtain ⟨wend, hv, _⟩ := closeBrace_decomp v rest h
  rw [hv]
  exact List.mem_append_right wend (List.mem_cons_self _ _)

/-- Decomposition of the greedy tail: the second group is the longest
viable dot-prefix, every longer candidate within the tried range fails
the closing-brace step, and the remainder follows the brace. -/
theorem greedyTail_spec : ∀ (n : Nat) (u g rest : List Char),
    greedyTail u n = some (g, rest) →
    ∃ k, 1 ≤ k ∧ k ≤ n ∧ g = u.take k ∧ closeBrace (u.drop k) = some rest ∧
      ∀ m, k < m → m ≤ n → closeBrace (u.drop m) = none := by
  intro n
  induction n with
  | zero => intro u g rest h; exact absurd h (by simp [greedyTail])
  | succ e ih =>
    intro u g rest h
    cases hc : closeBrace (u.drop (e + 1)) with
    | some r =>
      simp only [greedyTail, hc, Option.some.injEq, Prod.mk.injEq] at h
      refine ⟨e + 1, Nat.succ_le_succ (Nat.zero_le e), Nat.le_refl _, h.1.symm, ?_, ?_⟩
      · rw [hc, h.2]
      · intro m hm1 hm2; omega
    | none =>
      simp only [greedyTail, hc] at h
      obtain ⟨k, hk1, hk2, hg, hcb, hfail⟩ := ih u g rest h
      refine ⟨k, hk1, Nat.le_succ_of_le hk2, hg, hcb, ?_⟩
      intro m hm1 hm2
      rcases Nat.lt_or_ge m (e + 1) with hlt | hge
      · exact hfail m hm1 (Nat.le_of_lt_succ hlt)
      · have hme : m = e + 1 := Nat.le_antisymm hm2 hge
        rw [hme]
        exact hc

/-- The tail matcher defers to the greedy tail on some suffix of its
input obtained by dropping part of the whitespace run. -/
theorem tailW_spec : ∀ (w : Nat) (c2 g rest : List Char),
    tailW c2 w = some (g, rest) →
    ∃ k, k ≤ w ∧ greedyTail (c2.drop k) (dotLen (c2.drop k)) = some (g, rest) := by
  intro w
  induction w with
  | zero =>
    intro c2 g rest h
    exact ⟨0, Nat.le_refl 0, by simpa using h⟩
  | succ w ih =>
    intro c2 g rest h
    cases hl : greedyTail (c2.drop (w + 1)) (dotLen (c2.drop (w + 1))) with
    | some r =>
      simp only [tailW, hl] at h
      exact ⟨w + 1, Nat.le_refl _, by rw [hl, h]⟩
    | none =>
      simp only [tailW, hl] at h
      obtain ⟨k, hk, h2⟩ := ih c2 g rest h
      exact ⟨k, Nat.le_succ_of_le hk, h2⟩

/-- Decomposition of the pipe step between the two groups. -/
theorem afterG1_spec (r0 g2 rest : List Char) (h : afterG1 r0 = some (g2, rest)) :
    ∃ wmid c2, r0 = wmid ++ '|' :: c2 ∧ (∀ c ∈ wmid, wsChar c) ∧
      tailW c2 (wsLen c2) = some (g2, rest) := by
  obtain ⟨w, hw, hws⟩ := dropWsL_decomp r0
  unfold afterG1 at h
  cases hd : dropWsL r0 with
  | nil => rw [hd] at h; simp at h
  | cons c c2 =>
    rw [hd] at h
    by_cases hc : c = '|'
    · subst hc
      exact ⟨w, c2, by rw [hw, hd], hws, h⟩
    · simp [hc] at h

/-- The lazy first group is a prefix of its input with the rest of the
pattern matching right after it. -/
theorem lazyG1_spec : ∀ (b L : Nat) (t g1 g2 rest : List Char),
    lazyG1 t L b = some (g1, g2, rest) →
    ∃ k, L ≤ k ∧ g1 = t.take k ∧ afterG1 (t.drop k) = some (g2, rest) := by
  intro b
  induction b with
  | zero => intro L t g1 g2 rest h; exact absurd h (by simp [lazyG1])
  | succ b ih =>
    intro L t g1 g2 rest h
    cases ha : afterG1 (t.drop L) with
    | some r =>
      obtain ⟨g2x, restx⟩ := r
      simp only [lazyG1, ha, Option.some.injEq, Prod.mk.injEq] at h
      exact ⟨L, Nat.le_refl L, h.1.symm, by rw [ha, h.2.1, h.2.2]⟩
    | none =>
      simp only [lazyG1, ha] at h
      obtain ⟨k, hk, h2, h3⟩ := ih (L + 1) t g1 g2 rest h
      exact ⟨k, Nat.le_of_succ_le hk, h2, h3⟩

/-- The first-group matcher defers to the lazy loop on some suffix of
its input obtained by dropping part of the whitespace run. -/
theorem g1W_spec : ∀ (w : Nat) (c1 g1 g2 rest : List Char),
    g1W c1 w = some (g1, g2, rest) →
    ∃ k, k ≤ w ∧
      lazyG1 (c1.drop k) 1 (dotLen (c1.drop k)) = some (g1, g2, rest) := by
  intro w
  induction w with
  | zero =>
    intro c1 g1 g2 rest h
    exact ⟨0, Nat.le_refl 0, by simpa using h⟩
  | succ w ih =>
    intro c1 g1 g2 rest h
    cases hl : lazyG1 (c1.drop (w + 1)) 1 (dotLen (c1.drop (w + 1))) with
    | some r =>
      simp only [g1W, hl] at h
      exact ⟨w + 1, Nat.le_refl _, by rw [hl, h]⟩
    | none =>
      simp only [g1W, hl] at h
      obtain ⟨k, hk, h2⟩ := ih c1 g1 g2 rest h
      exact ⟨k, Nat.le_succ_of_le hk, h2⟩

/-- A whole-pattern match starts with the literal head. -/
theorem matchAt_spec (cs g1 g2 rest : List Char) (h : matchAt cs = some (g1, g2, rest)) :
    ∃ c1, cs = litChars ++ c1 ∧ g1W c1 (wsLen c1) = some (g1, g2, rest) := by
  unfold matchAt at h
  cases hs : stripLit litChars cs with
  | none => rw [hs] at h; simp at h
  | some c1 =>
    rw [hs] at h
    exact ⟨c1, stripLit_eq _ _ _ hs, h⟩

/-- The search splits its input at the first matching position. -/
theorem searchAux_spec : ∀ (cs acc pre g1 g2 rest : List Char),
    searchAux acc cs = some (pre, g1, g2, rest) →
    ∃ m, acc.reverse ++ cs = pre ++ m ∧ matchAt m = some (g1, g2, rest) := by
  intro cs
  induction cs with
  | nil => intro acc pre g1 g2 rest h; simp [searchAux] at h
  | cons c cs ih =>
    intro acc pre g1 g2 rest h
    cases hm : matchAt (c :: cs) with
    | some r =>
      obtain ⟨g1x, g2x, restx⟩ := r
      simp only [searchAux, hm, Option.some.injEq, Prod.mk.injEq] at h
      refine ⟨c :: cs, by rw [h.1], ?_⟩
      rw [hm, h.2.1, h.2.2.1, h.2.2.2]
    | none =>
      simp only [searchAux, hm] at h
      obtain ⟨m, hm2, hma⟩ := ih (c :: acc) pre g1 g2 rest h
      refine ⟨m, ?_, hma⟩
      simpa [List.append_assoc] using hm2

/-- A whole-pattern match needs a closing brace in its input. -/
theorem matchAt_brace (cs g1 g2 rest : List Char) (h : matchAt cs = some (g1, g2, rest)) :
    '\x7d' ∈ cs := by
  obtain ⟨c1, hc1, hg⟩ := matchAt_spec cs g1 g2 rest h
  obtain ⟨k1, _, hlz⟩ := g1W_spec _ c1 g1 g2 rest hg
  obtain ⟨k2, _, _, haft⟩ := lazyG1_spec _ _ _ g1 g2 rest hlz
  obtain ⟨wmid, c2, hr0, _, htw⟩ := afterG1_spec _ g2 rest haft
  obtain ⟨k3, _, hgt⟩ := tailW_spec _ c2 g2 rest htw
  obtain ⟨k, _, _, _, hcb, _⟩ := greedyTail_spec _ _ g2 rest hgt
  have h1 : '\x7d' ∈ c2 :=
    List.mem_of_mem_drop (List.mem_of_mem_drop (closeBrace_mem _ rest hcb))
  have h2 : '\x7d' ∈ (c1.drop k1).drop k2 := by
    rw [hr0]
    exact List.mem_append_right wmid (List.mem_cons_of_mem _ h1)
  rw [hc1]
  exact List.mem_append_right litChars
    (List.mem_of_mem_drop (List.mem_of_mem_drop h2))

/-- Without a closing brace the search finds nothing. -/
theorem searchAux_none (cs : List Char) (h : '\x7d' ∉ cs) :
    ∀ acc, searchAux acc cs = none := by
  induction cs with
  | nil => intro acc; rfl
  | cons c cs ih =>
    intro acc
    have hm : matchAt (c :: cs) = none := by
      cases hmm : matchAt (c :: cs) with
      | none => rfl
      | some r =>
        obtain ⟨g1, g2, rest⟩ := r
        exact absurd (matchAt_brace _ _ _ _ hmm) h
    simp only [searchAux, hm]
    exact ih (fun hx => h (List.mem_cons_of_mem c hx)) (c :: acc)

/-- On newline-free input, the remainder after the greedy tail contains
no closing brace: the greedy group already reached the last one. -/
theorem greedy_rest_no_brace (u g rest : List Char) (hdot : ∀ c ∈ u, dotChar c)
    (h : greedyTail u (dotLen u) = some (g, rest)) : '\x7d' ∉ rest := by
  obtain ⟨k, _, hk2, _, hcb, hfail⟩ := greedyTail_spec _ u g rest h
  intro hmem
  obtain ⟨s, t, hst⟩ := List.append_of_mem hmem
  obtain ⟨wend, hw, _⟩ := closeBrace_decomp _ rest hcb
  obtain ⟨P, hPdef⟩ : ∃ P, P = u.take k ++ (wend ++ '\x7d' :: s) := ⟨_, rfl⟩
  have hu : u = P ++ '\x7d' :: t := by
    rw [hPdef]
    conv_lhs => rw [← List.take_append_drop k u]
    rw [hw, hst]
    simp
  have hdropm : u.drop P.length = '\x7d' :: t := by
    conv_lhs => rw [hu]
    exact List.drop_left P _
  have hcbm : closeBrace (u.drop P.length) = some t := by rw [hdropm]; rfl
  have htk : (u.take k).length = k := by
    rw [List.length_take]
    exact Nat.min_eq_left (Nat.le_trans hk2 (dotLen_le_length u))
  have hkP : k < P.length := by
    have hlenP := congrArg List.length hPdef
    simp only [List.length_append, List.length_cons, htk] at hlenP
    omega
  have hPlen : P.length ≤ dotLen u := by
    have hlen := congrArg List.length hu
    simp only [List.length_append, List.length_cons] at hlen
    rw [dotLen_eq_length u hdot]
    omega
  rw [hfail P.length hkP hPlen] at hcbm
  exact Option.noConfusion hcbm

/-- On a newline-free line, the text after the single match contains no
closing brace, hence no further match: the first match is the only
one. -/
theorem search_rest_no_brace (cs pre g1 g2 rest : List Char)
    (hdot : ∀ c ∈ cs, dotChar c)
    (h : searchAux [] cs = some (pre, g1, g2, rest)) : '\x7d' ∉ rest := by
  obtain ⟨m, hm, hma⟩ := searchAux_spec cs [] pre g1 g2 rest h
  rw [List.reverse_nil, List.nil_append] at hm
  have hdm : ∀ c ∈ m, dotChar c := fun c hc =>
    hdot c (by rw [hm]; exact List.mem_append_right pre hc)
  obtain ⟨c1, hc1, hg⟩ := matchAt_spec m g1 g2 rest hma
  obtain ⟨k1, _, hlz⟩ := g1W_spec _ c1 g1 g2 rest hg
  obtain ⟨k2, _, _, haft⟩ := lazyG1_spec _ _ _ g1 g2 rest hlz
  obtain ⟨wmid, c2, hr0, _, htw⟩ := afterG1_spec _ g2 rest haft
  obtain ⟨k3, _, hgt⟩ := tailW_spec _ c2 g2 rest htw
  refine greedy_rest_no_brace (c2.drop k3) g2 rest ?_ hgt
  intro c hc
  have h1 : c ∈ c2 := List.mem_of_mem_drop hc
  have h2 : c ∈ (c1.drop k1).drop k2 := by
    rw [hr0]
    exact List.mem_append_right wmid (List.mem_cons_of_mem _ h1)
  have h3 : c ∈ m := by
    rw [hc1]
    exact List.mem_append_right litChars
      (List.mem_of_mem_drop (List.mem_of_mem_drop h2))
  exact hdm c h3

/-- The whitespace between the greedy group and the closing brace is
empty or begins with a newline: a same-line space or tab there would
have been swallowed by the greedy group instead. -/
theorem wend_newline (u rest wend : List Char) (k : Nat)
    (hk2 : k ≤ dotLen u)
    (hdrop : u.drop k = wend ++ '\x7d' :: rest)
    (hws : ∀ c ∈ wend, wsChar c)
    (hfail : ∀ m, k < m → m ≤ dotLen u → closeBrace (u.drop m) = none) :
    wend = [] ∨ ∃ t2, wend = '\n' :: t2 := by
  cases wend with
  | nil => exact Or.inl rfl
  | cons c t2 =>
    by_cases hc : c = '\n'
    · exact Or.inr ⟨t2, by rw [hc]⟩
    · exfalso
      have hcd : dotChar c := by simpa [dotChar] using hc
      have hdc : u.drop k = c :: (t2 ++ '\x7d' :: rest) := by simpa using hdrop
      have hsucc : k + 1 ≤ dotLen u :=
        dotLen_succ_of_drop u k c (t2 ++ '\x7d' :: rest) hk2 hdc hcd
      have hdrop1 : u.drop (k + 1) = t2 ++ '\x7d' :: rest := by
        have hstep := congrArg (List.drop 1) hdc
        rw [List.drop_drop] at hstep
        simpa using hstep
      have hcb1 : closeBrace (u.drop (k + 1)) = some rest := by
        rw [hdrop1]
        unfold closeBrace
        rw [dropWsL_ws_append t2 _ (fun x hx => hws x (List.mem_cons_of_mem c hx))]
        rfl
      rw [hfail (k + 1) (Nat.lt_succ_self k) hsucc] at hcb1
      exact Option.noConfusion hcb1

/-- Full symbolic decomposition of the first match on a line: the line
is the unmatched prefix, the literal head, consumed whitespace, the
captured source, whitespace and the pipe, consumed whitespace, the
captured key, the gap before the closing brace — always empty or
starting with a newline — the brace, and the text after the match. -/
theorem search_decomp (cs pre g1 g2 rest : List Char)
    (h : searchAux [] cs = some (pre, g1, g2, rest)) :
    ∃ w1 wmid w2 wend,
      cs = pre ++ litChars ++ w1 ++ g1 ++ wmid ++ '|' ::
        (w2 ++ g2 ++ wend ++ '\x7d' :: rest) ∧
      (∀ c ∈ w1, wsChar c) ∧ (∀ c ∈ wmid, wsChar c) ∧ (∀ c ∈ w2, wsChar c) ∧
      (∀ c ∈ wend, wsChar c) ∧ (wend = [] ∨ ∃ t, wend = '\n' :: t) := by
  obtain ⟨m, hm, hma⟩ := searchAux_spec cs [] pre g1 g2 rest h
  rw [List.reverse_nil, List.nil_append] at hm
  obtain ⟨c1, hc1, hg⟩ := matchAt_spec m g1 g2 rest hma
  obtain ⟨k1, hk1, hlz⟩ := g1W_spec _ c1 g1 g2 rest hg
  obtain ⟨k2, _, hg1, haft⟩ := lazyG1_spec _ _ _ g1 g2 rest hlz
  obtain ⟨wmid, c2, hr0, hwm, htw⟩ := afterG1_spec _ g2 rest haft
  obtain ⟨k3, hk3, hgt⟩ := tailW_spec _ c2 g2 rest htw
  obtain ⟨k, _, hk, hg2, hcb, hfail⟩ := greedyTail_spec _ _ g2 rest hgt
  obtain ⟨wend, hwend, hwendws⟩ := closeBrace_decomp _ rest hcb
  refine ⟨c1.take k1, wmid, c2.take k3, wend, ?_, take_wsLen c1 k1 hk1, hwm,
    take_wsLen c2 k3 hk3, hwendws, ?_⟩
  · have e1 : c2.drop k3 = g2 ++ (wend ++ '\x7d' :: rest) := by
      conv_lhs => rw [← List.take_append_drop k (c2.drop k3)]
      rw [← hg2, hwend]
    have e2 : c2 = c2.take k3 ++ (g2 ++ (wend ++ '\x7d' :: rest)) := by
      conv_lhs => rw [← List.take_append_drop k3 c2]
      rw [e1]
    have e4 : c1.drop k1 = g1 ++ (wmid ++ '|' ::
        (c2.take k3 ++ (g2 ++ (wend ++ '\x7d' :: rest)))) := by
      conv_lhs => rw [← List.take_append_drop k2 (c1.drop k1)]
      rw [← hg1, hr0]
      conv_lhs => rw [e2]
    have e5 : c1 = c1.take k1 ++ (g1 ++ (wmid ++ '|' ::
        (c2.take k3 ++ (g2 ++ (wend ++ '\x7d' :: rest))))) := by
      conv_lhs => rw [← List.take_append_drop k1 c1]
      rw [e4]
    conv_lhs => rw [hm, hc1, e5]
    simp [List.append_assoc]
  · exact wend_newline (c2.drop k3) rest wend k hk hwend hwendws hfail

/-- C1, counterexample: in the spec scenario the directive is written
with a space before the closing brace, so the greedy second capture
group is `create_user ` (trailing space); the lookup in `params.json`
(which stores the key `create_user`) fails, the directive is blanked,
and the output is the single line `Intro  Outro` — not a sequence
starting with the line `Intro` followed by table lines. -/
theorem spec_C1_counterexample :
    run cfgParams 40 [lineC1sp] = ["Intro  Outro"] ∧
    (run cfgParams 40 [lineC1sp]).headD "" ≠ "Intro" :=
  ⟨rfl, by decide⟩

/-- C1, amended: for every resolvable directive the scanner replaces the
matched line by the first split segment, the rendered table lines, and
the last split segment, shifting all subsequent lines; the scenario
holds for the directive written without a space before the closing brace
(with the space, the captured key keeps the trailing space and the
lookup fails), yielding `Intro `, the header block, the one-row block
(email, a@b.com, Yes, User email), the footer lines, and ` Outro`. -/
theorem spec_C1 :
    (∀ (cfg : Config) (lines : List String) (loc : Nat) (line g1 g2 : String)
        (text : List String) (f : Nat),
        findDirective 0 lines = some (loc, line, g1, g2) →
        processMatch cfg g1 g2 = Except.ok text →
        run cfg (f + 1) lines =
          run cfg f (lines.take loc ++
            ((pySplit line).headD "" :: (text ++ [(pySplit line).getLastD ""])) ++
            lines.drop (loc + 1))) ∧
    run cfgParams 40 [lineC1ns] =
      ["Intro ", tableBegin, rowEmail, "</tbody>", "</table>", " Outro"] := by
  constructor
  · intro cfg lines loc line g1 g2 text f h1 h2
    simp [run, runAux, h1, h2]
  · rfl

/-- C1, witness for the amended theorem: the hypotheses hold for the
fixed scenario line, and applying the theorem gives the splice step. -/
theorem spec_C1_witness :
    findDirective 0 [lineC1ns] = some (0, lineC1ns, "params.json", "create_user") ∧
    processMatch cfgParams "params.json" "create_user" =
      Except.ok [tableBegin, rowEmail, "</tbody>", "</table>"] ∧
    run cfgParams (3 + 1) [lineC1ns] =
      run cfgParams 3 ([lineC1ns].take 0 ++
        ((pySplit lineC1ns).headD "" ::
          ([tableBegin, rowEmail, "</tbody>", "</table>"] ++
            [(pySplit lineC1ns).getLastD ""])) ++
        [lineC1ns].drop (0 + 1)) :=
  ⟨rfl, rfl,
    spec_C1.1 cfgParams [lineC1ns] 0 lineC1ns "params.json" "create_user"
      [tableBegin, rowEmail, "</tbody>", "</table>"] 3 rfl rfl⟩

/-- C2: every failing directive (missing file, parse error, missing key,
resolver error, malformed record — all modelled as an error result of
`processMatch`) produces a diagnostic naming the attempted path and the
underlying error, replaces the matched directive text by the empty
string in place (preserving surrounding text), and the scan continues;
in the scenario with `params.json` missing from disk the output is the
single line `Intro  Outro` and the diagnostic names `params.json`. -/
theorem spec_C2 :
    (∀ (cfg : Config) (lines : List String) (loc : Nat) (line g1 g2 e : String)
        (f : Nat),
        findDirective 0 lines = some (loc, line, g1, g2) →
        processMatch cfg g1 g2 = Except.error e →
        run cfg (f + 1) lines = run cfg f (lines.set loc (pySub line)) ∧
        runDiags cfg (f + 1) lines =
          warnMsg (resolvedFilename cfg g1) e ::
            runDiags cfg f (lines.set loc (pySub line))) ∧
    run cfgMissing 40 [lineC1sp] = ["Intro  Outro"] ∧
    runDiags cfgMissing 40 [lineC1sp] =
      [warnMsg "params.json" "No such file or directory: params.json"] := by
  refine ⟨?_, rfl, rfl⟩
  intro cfg lines loc line g1 g2 e f h1 h2
  constructor
  · simp [run, runAux, h1, h2]
  · simp [runDiags, runAux, h1, h2]

/-- C2, witness: the hypotheses hold for the missing-file scenario, and
applying the theorem gives the blanking step and its diagnostic. -/
theorem spec_C2_witness :
    findDirective 0 [lineC1sp] = some (0, lineC1sp, "params.json", "create_user ") ∧
    processMatch cfgMissing "params.json" "create_user " =
      Except.error "No such file or directory: params.json" ∧
    (run cfgMissing (5 + 1) [lineC1sp] =
        run cfgMissing 5 ([lineC1sp].set 0 (pySub lineC1sp)) ∧
      runDiags cfgMissing (5 + 1) [lineC1sp] =
        warnMsg (resolvedFilename cfgMissing "params.json")
            "No such file or directory: params.json" ::
          runDiags cfgMissing 5 ([lineC1sp].set 0 (pySub lineC1sp))) :=
  ⟨rfl, rfl,
    spec_C2.1 cfgMissing [lineC1sp] 0 lineC1sp "params.json" "create_user "
      "No such file or directory: params.json" 5 rfl rfl⟩

/-- C3, counterexample: for an unresolvable directive with surrounding
text, the line is not replaced by an empty line — the surrounding text
survives on the same line and no empty line appears in the output. -/
theorem spec_C3_counterexample :
    run cfgMissing 40 [lineC1sp] = ["Intro  Outro"] ∧
    "" ∉ run cfgMissing 40 [lineC1sp] :=
  ⟨rfl, by decide⟩

/-- C3, amended: for every line containing an unresolvable directive,
the failure path replaces that line in place by the line with the
matched text removed as an empty string: the text before the match is
kept verbatim, the remainder after the match is processed for further
matches and kept verbatim when none remain, a nonempty prefix always
survives, and the line becomes the empty line when the match spans the
whole line; in the scenarios, a whole-line directive yields the empty
line while the surrounded one yields `Intro  Outro`. -/
theorem spec_C3 :
    (∀ (cfg : Config) (lines : List String) (loc : Nat) (line g1 g2 e : String)
        (f : Nat),
        findDirective 0 lines = some (loc, line, g1, g2) →
        processMatch cfg g1 g2 = Except.error e →
        run cfg (f + 1) lines = run cfg f (lines.set loc (pySub line))) ∧
    (∀ (cs pre g1 g2 rest : List Char) (f : Nat),
        searchAux [] cs = some (pre, g1, g2, rest) →
        subFuel (f + 1) cs = pre ++ subFuel f rest) ∧
    (∀ (cs : List Char) (f : Nat), searchAux [] cs = none → subFuel f cs = cs) ∧
    (∀ (s : String) (g1 g2 : List Char),
        searchAux [] s.data = some ([], g1, g2, []) → pySub s = "") ∧
    (∀ (s : String) (pre g1 g2 rest : List Char),
        searchAux [] s.data = some (pre, g1, g2, rest) → pre ≠ [] → pySub s ≠ "") ∧
    run cfgMissing 40 [lineFull] = [""] ∧
    run cfgMissing 40 [lineC1sp] = ["Intro  Outro"] := by
  refine ⟨?_, ?_, ?_, ?_, ?_, rfl, rfl⟩
  · intro cfg lines loc line g1 g2 e f h1 h2
    simp [run, runAux, h1, h2]
  · intro cs pre g1 g2 rest f h
    simp [subFuel, h]
  · intro cs f h
    exact subFuel_none cs h f
  · intro s g1 g2 h
    simp [pySub, subFuel, h, subFuel_nil]
  · intro s pre g1 g2 rest h hpre hempty
    have hdata : pre ++ subFuel s.length rest = [] := by
      have := congrArg String.data hempty
      simpa [pySub, subFuel, h] using this
    exact hpre (List.append_eq_nil.mp hdata).1

/-- C3, witness: the whole-line scenario directive matches with empty
prefix and remainder, and applying the amended theorem blanks the line
to the empty line. -/
theorem spec_C3_witness :
    searchAux [] lineFull.data =
      some ([], "params.json".data, "create_user ".data, []) ∧
    pySub lineFull = "" :=
  ⟨rfl, spec_C3.2.2.2.1 lineFull "params.json".data "create_user ".data rfl⟩

/-- C4, counterexample: the greedy second capture group keeps trailing
whitespace, so in the API-description scenario the resolver is invoked
with method `get ` (trailing space), not `get`. -/
theorem spec_C4_counterexample :
    searchGroups lineYaml = some ("api.yaml", "/users:get ") ∧
    runDiags cfgProbe 40 [lineYaml] =
      [warnMsg "api.yaml" "endpoint=(/users) method=(get )"] ∧
    "/users:get " ≠ "/users:get" ∧ "get " ≠ "get" :=
  ⟨rfl, rfl, by decide, by decide⟩

/-- C4, amended: for every directive match, the line decomposes into the
unmatched prefix, the literal head, pattern-consumed whitespace, the
captured source, pattern-consumed whitespace and the pipe,
pattern-consumed whitespace, the captured key, a gap before the closing
brace that is always empty or starts with a newline, the brace, and the
following text — so on a single-line directive every space or tab
before the closing brace is captured into the key rather than trimmed;
in the scenario the source is captured as `api.yaml` (trimmed on both
sides), classified as API-description format, and the resolver is
invoked with endpoint `/users` and method `get ` (with a trailing
space), the key split at its last colon. -/
theorem spec_C4 :
    (∀ (s : String) (pre g1 g2 rest : List Char),
        searchAux [] s.data = some (pre, g1, g2, rest) →
        ∃ w1 wmid w2 wend,
          s.data = pre ++ litChars ++ w1 ++ g1 ++ wmid ++ '|' ::
            (w2 ++ g2 ++ wend ++ '\x7d' :: rest) ∧
          (∀ c ∈ w1, wsChar c) ∧ (∀ c ∈ wmid, wsChar c) ∧
          (∀ c ∈ w2, wsChar c) ∧ (∀ c ∈ wend, wsChar c) ∧
          (wend = [] ∨ ∃ t, wend = '\n' :: t)) ∧
    searchGroups lineYaml = some ("api.yaml", "/users:get ") ∧
    rsplitColon "/users:get " = some ("/users", "get ") ∧
    strEnds (expanduser cfgProbe.home "api.yaml") ".yaml" = true ∧
    runDiags cfgProbe 40 [lineYaml] =
      [warnMsg "api.yaml" "endpoint=(/users) method=(get )"] :=
  ⟨fun s pre g1 g2 rest h => search_decomp s.data pre g1 g2 rest h,
    rfl, rfl, rfl, rfl⟩

/-- C4, witness: the scenario line matches with source `api.yaml` and
key `/users:get `, and applying the amended theorem decomposes it. -/
theorem spec_C4_witness :
    searchAux [] lineYaml.data =
      some ([], "api.yaml".data, "/users:get ".data, []) ∧
    (∃ w1 wmid w2 wend,
      lineYaml.data = [] ++ litChars ++ w1 ++ "api.yaml".data ++ wmid ++ '|' ::
        (w2 ++ "/users:get ".data ++ wend ++ '\x7d' :: []) ∧
      (∀ c ∈ w1, wsChar c) ∧ (∀ c ∈ wmid, wsChar c) ∧
      (∀ c ∈ w2, wsChar c) ∧ (∀ c ∈ wend, wsChar c) ∧
      (wend = [] ∨ ∃ t, wend = '\n' :: t)) :=
  ⟨rfl, spec_C4.1 lineYaml [] "api.yaml".data "/users:get ".data [] rfl⟩

/-- C5: for every list of well-formed records, the rendered table is
exactly the fixed header block, one row block per record in input order
(no reordering, filtering, or deduplication), and the fixed footer. -/
theorem spec_C5 (md : String → String) (args : List ArgumentRecord)
    (h : ∀ a ∈ args, a.description.isSome ∧ a.example_.isSome) :
    render_table md args =
      Except.ok (tableBegin :: (args.map (rowOf md) ++ ["</tbody>", "</table>"])) := by
  simp [render_table, rowsExc_ok md args h]

/-- C5, witness: a two-record list (with duplicate records, evidencing
that nothing is deduplicated) renders to a header, two rows in order,
and the footer. -/
theorem spec_C5_witness :
    (∀ a ∈ [recEmail, recEmail], a.description.isSome ∧ a.example_.isSome) ∧
    render_table id [recEmail, recEmail] =
      Except.ok (tableBegin ::
        ([recEmail, recEmail].map (rowOf id) ++ ["</tbody>", "</table>"])) :=
  ⟨by decide, spec_C5 id [recEmail, recEmail] (by decide)⟩

/-- C6: a record with a nonempty enum list renders a description cell
whose text (before the external inline formatter is applied) is the base
description followed by the sentence `Must be one of: ` with each value
wrapped in code-span backticks, joined by `, `, and terminated by a
period. -/
theorem spec_C6 (md : String → String) (a : ArgumentRecord) (d ex : String)
    (vs : List String) (h1 : a.description = some d) (h2 : a.example_ = some ex)
    (h3 : a.enum = vs) (h4 : vs ≠ []) :
    renderRow md a =
      Except.ok (trFormat (argCell a.argument a.name) ex
        (if a.required then "Yes" else "No")
        (md (d ++ "\nMust be one of: " ++
          joinSep ", " (vs.map (fun v => "`" ++ v ++ "`")) ++ "."))) := by
  cases vs with
  | nil => exact absurd rfl h4
  | cons v vs' => simp [renderRow, h1, h2, h3]

/-- C6, witness: the record with `schema.enum = [a, b]` renders a
description ending in the sentence listing both values as code spans,
comma-separated and period-terminated. -/
theorem spec_C6_witness :
    recEnum.description = some "Org level" ∧ recEnum.example_ = some "1" ∧
    recEnum.enum = ["a", "b"] ∧ (["a", "b"] : List String) ≠ [] ∧
    renderRow id recEnum =
      Except.ok (trFormat (argCell recEnum.argument recEnum.name) "1"
        (if recEnum.required then "Yes" else "No")
        (id ("Org level" ++ "\nMust be one of: " ++
          joinSep ", " (["a", "b"].map (fun v => "`" ++ v ++ "`")) ++ "."))) :=
  ⟨rfl, rfl, rfl, by decide,
    spec_C6 id recEnum "Org level" "1" ["a", "b"] rfl rfl rfl (by decide)⟩

/-- C7, counterexample: the `argument` field, not `name`, is primary
(a record carrying both renders `argument`), and the fallback triggers
not only on absence but also on an empty (falsy) primary value. -/
theorem spec_C7_counterexample :
    argCell (some "stream") (some "channel") = "stream" ∧ "stream" ≠ "channel" ∧
    argCell (some "") (some "channel") = "channel" ∧ "channel" ≠ "" ∧
    renderRow id
        { argument := some "", name := some "channel", example_ := some "e",
          description := some "d" } =
      Except.ok (trFormat "channel" "e" "No" "d") :=
  ⟨rfl, by decide, rfl, by decide, rfl⟩

/-- C7, amended: the Argument cell renders the Python expression
`argument.get("argument") or argument.get("name")` coerced to a string:
`argument` is primary, the fallback to `name` triggers when `argument`
is absent or empty (falsy), and when the selected value is `None` the
cell renders the string `None` rather than failing (an empty-string
`name` renders as the empty string). -/
theorem spec_C7 :
    (∀ (s : String) (n : Option String), s ≠ "" → argCell (some s) n = s) ∧
    (∀ n : Option String, argCell none n = pyStr n) ∧
    (∀ n : Option String, argCell (some "") n = pyStr n) ∧
    argCell none none = "None" ∧ argCell (some "") none = "None" ∧
    (∀ (md : String → String) (a : ArgumentRecord) (d ex : String),
        a.description = some d → a.example_ = some ex → a.enum = [] →
        renderRow md a =
          Except.ok (trFormat (argCell a.argument a.name) ex
            (if a.required then "Yes" else "No") (md d))) := by
  refine ⟨?_, ?_, ?_, rfl, rfl, ?_⟩
  · intro s n h; simp [argCell, pyTruthy, pyStr, h]
  · intro n; simp [argCell, pyTruthy]
  · intro n; simp [argCell, pyTruthy]
  · intro md a d ex h1 h2 h3; simp [renderRow, h1, h2, h3]

/-- C7, witness: applying the amended theorem at concrete values. -/
theorem spec_C7_witness : "x" ≠ "" ∧ argCell (some "x") none = "x" :=
  ⟨by decide, spec_C7.1 "x" none (by decide)⟩

/-- C8: on a line sequence with no matching line the transformation is
the identity, and hence applying it a second time to such a sequence
(in particular to one whose directives were already blanked, which
contains no match) changes nothing. -/
theorem spec_C8 (cfg : Config) (fuel : Nat) (ls : List String)
    (h : ∀ l ∈ ls, searchGroups l = none) :
    run cfg fuel ls = ls ∧ run cfg fuel (run cfg fuel ls) = run cfg fuel ls := by
  have h0 := findDirective_none ls h 0
  have key : run cfg fuel ls = ls := by
    cases fuel with
    | zero => rfl
    | succ f => simp [run, runAux, h0]
  exact ⟨key, by rw [key, key]⟩

/-- C8, witness: the blanked scenario line and a plain line contain no
match, and the transformation leaves them unchanged, twice. -/
theorem spec_C8_witness :
    (∀ l ∈ ["Intro  Outro", "plain text"], searchGroups l = none) ∧
    (run cfgMissing 5 ["Intro  Outro", "plain text"] = ["Intro  Outro", "plain text"] ∧
      run cfgMissing 5 (run cfgMissing 5 ["Intro  Outro", "plain text"]) =
        run cfgMissing 5 ["Intro  Outro", "plain text"]) :=
  ⟨by decide, spec_C8 cfgMissing 5 ["Intro  Outro", "plain text"] (by decide)⟩

/-- C9: on every (newline-free) line the match found by the scanner is
the only one — the greedy key group reaches the last closing brace, so
on a line with two or more directives the single match spans them all,
with its source taken from the first directive; the split therefore has
exactly four segments, and when the resolution succeeds the splice keeps
only the first segment (text before the first directive) and the last
(text after the last one), discarding everything between without a
further resolution or diagnostic; on the concrete two-directive line the
second directive's file `g.json` is missing from the configuration, yet
the table renders and no diagnostic is produced. -/
theorem spec_C9 :
    (∀ (s : String) (pre g1 g2 rest : List Char),
        (∀ c ∈ s.data, dotChar c) →
        searchAux [] s.data = some (pre, g1, g2, rest) →
        pySplit s = [String.mk pre, String.mk g1, String.mk g2, String.mk rest] ∧
        searchAux [] rest = none) ∧
    (∀ (cfg : Config) (lines : List String) (loc : Nat) (line g1 g2 : String)
        (text : List String) (f : Nat),
        findDirective 0 lines = some (loc, line, g1, g2) →
        processMatch cfg g1 g2 = Except.ok text →
        run cfg (f + 1) lines =
          run cfg f (lines.take loc ++
            ((pySplit line).headD "" :: (text ++ [(pySplit line).getLastD ""])) ++
            lines.drop (loc + 1)) ∧
        runDiags cfg (f + 1) lines =
          runDiags cfg f (lines.take loc ++
            ((pySplit line).headD "" :: (text ++ [(pySplit line).getLastD ""])) ++
            lines.drop (loc + 1))) ∧
    searchGroups lineTwo = some ("f.json", bigKey) ∧
    pySplit lineTwo = ["A ", "f.json", bigKey, " C"] ∧
    run cfgTwo 40 [lineTwo] = ["A ", tableBegin, rowD, "</tbody>", "</table>", " C"] ∧
    runDiags cfgTwo 40 [lineTwo] = [] := by
  refine ⟨?_, ?_, rfl, rfl, rfl, rfl⟩
  · intro s pre g1 g2 rest hdot h
    have hnb : '\x7d' ∉ rest := search_rest_no_brace s.data pre g1 g2 rest hdot h
    have hnone : searchAux [] rest = none := searchAux_none rest hnb []
    exact ⟨by simp [pySplit, splitFuel, h, splitFuel_none rest hnone], hnone⟩
  · intro cfg lines loc line g1 g2 text f h1 h2
    constructor
    · simp [run, runAux, h1, h2]
    · simp [runDiags, runAux, h1, h2]

/-- C9, witness: the two-directive line is newline-free and carries a
single spanning match; applying the theorem gives the four split
segments and the absence of any further match after the span. -/
theorem spec_C9_witness :
    (∀ c ∈ lineTwo.data, dotChar c) ∧
    (pySplit lineTwo = [String.mk "A ".data, String.mk "f.json".data,
        String.mk bigKey.data, String.mk " C".data] ∧
      searchAux [] " C".data = none) :=
  ⟨by decide,
    spec_C9.1 lineTwo "A ".data "f.json".data bigKey.data " C".data (by decide) rfl⟩

/-- C10: on every (newline-free) line, the single substitution of the
failure path removes the whole matched span — every directive occurrence
on the line, since the single match extends to the last closing brace —
in one step, leaving only the text before and after the span, after
which no match remains in the removed span's remainder, so no other
directive on that line is ever attempted; each failing attempt produces
exactly one diagnostic; on the concrete two-directive line both
directives disappear at once and a single diagnostic names `f.json`. -/
theorem spec_C10 :
    (∀ (s : String) (pre g1 g2 rest : List Char),
        (∀ c ∈ s.data, dotChar c) →
        searchAux [] s.data = some (pre, g1, g2, rest) →
        pySub s = String.mk (pre ++ rest) ∧ searchAux [] rest = none) ∧
    (∀ (cfg : Config) (lines : List String) (loc : Nat) (line g1 g2 e : String)
        (f : Nat),
        findDirective 0 lines = some (loc, line, g1, g2) →
        processMatch cfg g1 g2 = Except.error e →
        run cfg (f + 1) lines = run cfg f (lines.set loc (pySub line)) ∧
        runDiags cfg (f + 1) lines =
          warnMsg (resolvedFilename cfg g1) e ::
            runDiags cfg f (lines.set loc (pySub line))) ∧
    pySub lineTwo = "A  C" ∧
    run cfgMissing 40 [lineTwo] = ["A  C"] ∧
    runDiags cfgMissing 40 [lineTwo] =
      [warnMsg "f.json" "No such file or directory: f.json"] := by
  refine ⟨?_, ?_, rfl, rfl, rfl⟩
  · intro s pre g1 g2 rest hdot h
    have hnb : '\x7d' ∉ rest := search_rest_no_brace s.data pre g1 g2 rest hdot h
    have hnone : searchAux [] rest = none := searchAux_none rest hnb []
    exact ⟨by simp [pySub, subFuel, h, subFuel_none rest hnone], hnone⟩
  · intro cfg lines loc line g1 g2 e f h1 h2
    constructor
    · simp [run, runAux, h1, h2]
    · simp [runDiags, runAux, h1, h2]

/-- C10, witness: on the two-directive line the single substitution
leaves only the outer text, and nothing after the span matches. -/
theorem spec_C10_witness :
    (∀ c ∈ lineTwo.data, dotChar c) ∧
    (pySub lineTwo = String.mk ("A ".data ++ " C".data) ∧
      searchAux [] " C".data = none) :=
  ⟨by decide,
    spec_C10.1 lineTwo "A ".data "f.json".data bigKey.data " C".data (by decide) rfl⟩

end ApiTables
